import Mathlib

/-!
# RetroPlayer audio bridge (`xbmc/cores/RetroPlayer/RetroPlayerAudio.cpp`)

A shallow embedding of `CRetroPlayerAudio`: the sample-rate normaliser
`NormalizeSamplerate`, the stream life cycle (`OpenPCMStream`, `CloseStream`,
the destructor), the encoded-stream stub and the data relay `AddData`.

`unsigned int` values are natural numbers; where the C++ arithmetic can wrap
the embedding reduces modulo `2 ^ 32` explicitly.  Calls into the audio engine,
the stream object and the process info are recorded, in program order, in a
trace of `Event`s.  Calls to `CLog::Log` are not recorded.
-/

namespace RetroPlayerAudio

/-! ## Sample-rate normaliser -/

/-- Number of values of a C++ `unsigned int`. -/
def UINT_RANGE : Nat := 2 ^ 32

/-- The static array `sampleRateList` of `NormalizeSamplerate`, with its
terminating `0`. -/
def sampleRateList : List Nat :=
  [5512, 8000, 11025, 16000, 22050, 32000, 44100, 48000, 0]

/-- The supported rates: the entries of `sampleRateList` before the `0`
sentinel. -/
def supportedRates : List Nat :=
  [5512, 8000, 11025, 16000, 22050, 32000, 44100, 48000]

/-- The `for (unsigned int *rate = sampleRateList; ; rate++)` loop of
`NormalizeSamplerate`.  `rate` is the index the pointer stands at; the first
argument bounds the number of iterations.  `none` means that the bound was
reached or that a read fell outside the array. -/
def normalizeLoop (samplerate : Nat) : Nat → Nat → Option Nat
  | 0, _ => none
  | fuel + 1, rate =>
    match sampleRateList[rate]?, sampleRateList[rate + 1]? with
    | some thisValue, some nextValue =>
      if nextValue = 0 then
        -- Reached the end of our list
        some thisValue
      else if samplerate < ((thisValue + nextValue) % UINT_RANGE) / 2 then
        -- samplerate is between this rate and the next, so use this rate
        some thisValue
      else
        normalizeLoop samplerate fuel (rate + 1)
    | _, _ => none

/-- `CRetroPlayerAudio::NormalizeSamplerate`.  The loop is given one iteration
per array slot; the last line is the source's `return samplerate; // Shouldn't
happen`. -/
def NormalizeSamplerate (samplerate : Nat) : Nat :=
  match normalizeLoop samplerate sampleRateList.length 0 with
  | some r => r
  | none => samplerate

/-- What one run of the table walk did: how many times the loop body was
entered, which array indices were read, and the values of `thisValue +
nextValue` (before any reduction to 32 bits) that were computed. -/
structure WalkLog where
  iterations : Nat
  reads : List Nat
  sums : List Nat
deriving DecidableEq, Repr

/-- The loop of `NormalizeSamplerate` as in `normalizeLoop`, keeping a
`WalkLog`: each iteration reads `*rate` and `*(rate + 1)`, and computes the
sum only after the sentinel test has failed. -/
def normalizeLoopLogged (samplerate : Nat) : Nat → Nat → WalkLog → Option Nat × WalkLog
  | 0, _, log => (none, log)
  | fuel + 1, rate, log =>
    let log₁ : WalkLog :=
      { log with iterations := log.iterations + 1, reads := log.reads ++ [rate, rate + 1] }
    match sampleRateList[rate]?, sampleRateList[rate + 1]? with
    | some thisValue, some nextValue =>
      if nextValue = 0 then
        (some thisValue, log₁)
      else
        let log₂ : WalkLog := { log₁ with sums := log₁.sums ++ [thisValue + nextValue] }
        if samplerate < ((thisValue + nextValue) % UINT_RANGE) / 2 then
          (some thisValue, log₂)
        else
          normalizeLoopLogged samplerate fuel (rate + 1) log₂
    | _, _ => (none, log₁)

/-- The indices read by the first `n` iterations of the walk: iteration `rate`
reads `rate` and `rate + 1`. -/
def readsOfIterations (n : Nat) : List Nat :=
  (List.range n).flatMap fun rate => [rate, rate + 1]

/-- Distance between two rates, `|a - b|`. -/
def rateDist (a b : Nat) : Nat := if a ≤ b then b - a else a - b

/-- Adjacent pairs `(low, high)` of a table, in table order. -/
def adjacentPairs (table : List Nat) : List (Nat × Nat) :=
  table.zip table.tail

/-- The table walk as the specification words it: the first entry `low` whose
successor `high` has `x < ⌊(low + high) / 2⌋`, and the table's last entry when
`x` is at or above every such midpoint. -/
def referenceWalk (table : List Nat) (x : Nat) : Nat :=
  match (adjacentPairs table).find? (fun p => decide (x < (p.1 + p.2) / 2)) with
  | some p => p.1
  | none => table.getLastD 0

/-! ## Collaborators -/

/-- The enum `AEDataFormat` (declared in the audio engine), by its integer
value. -/
abbrev AEDataFormat := Int

/-- The enum `AVCodecID`, by its integer value. -/
abbrev AVCodecID := Int

/-- A `CAEChannelInfo`: the ordered channel identifiers of a layout. -/
abbrev CAEChannelInfo := List Nat

/-- The fields of `AEAudioFormat` that `OpenPCMStream` fills in. -/
structure AEAudioFormat where
  m_dataFormat : AEDataFormat
  m_sampleRate : Nat
  m_channelLayout : CAEChannelInfo
deriving DecidableEq, Repr

/-- An `IAEStream*` handed out by the audio engine: its identity and what its
`GetChannelCount()` and `GetDataFormat()` answer. -/
structure IAEStream where
  id : Nat
  channelCount : Nat
  dataFormat : AEDataFormat
deriving DecidableEq, Repr

/-- One call from the bridge to a collaborator. -/
inductive Event where
  /-- The call `GetActiveAE()->MakeStream(audioFormat)` and what it returned. -/
  | MakeStream (audioFormat : AEAudioFormat) (result : Option IAEStream)
  /-- The call `GetActiveAE()->FreeStream(stream)`. -/
  | FreeStream (stream : IAEStream)
  /-- The call `stream->GetChannelCount()`. -/
  | GetChannelCount (stream : IAEStream)
  /-- The call `stream->GetDataFormat()`. -/
  | GetDataFormat (stream : IAEStream)
  /-- The call `stream->AddData(&data, offset, frames)`. -/
  | StreamAddData (stream : IAEStream) (data : List Nat) (offset frames : Nat)
  /-- The call `m_processInfo.SetAudioChannels(layout)`. -/
  | SetAudioChannels (layout : CAEChannelInfo)
  /-- The call `m_processInfo.SetAudioSampleRate(rate)`. -/
  | SetAudioSampleRate (rate : Nat)
  /-- The call `m_processInfo.SetAudioBitsPerSample(bits)`. -/
  | SetAudioBitsPerSample (bits : Nat)
deriving DecidableEq, Repr

/-- The code the bridge calls but does not contain: the audio engine's
`MakeStream` (its answer may depend on every call made so far; it is taken to
leave the format it is given as it was) and the two `CAEUtil` bit-width
tables. -/
structure Host where
  MakeStream : List Event → AEAudioFormat → Option IAEStream
  DataFormatToBits : AEDataFormat → Nat
  DataFormatToUsedBits : AEDataFormat → Nat

/-! ## The bridge -/

/-- The data members of `CRetroPlayerAudio` (`m_processInfo` is a reference to
a collaborator; calls to it appear in the trace). -/
structure CRetroPlayerAudio where
  m_pAudioStream : Option IAEStream
  m_bAudioEnabled : Bool
deriving DecidableEq, Repr

/-- A bridge object together with the calls made to collaborators so far,
oldest first. -/
structure Sys where
  audio : CRetroPlayerAudio
  trace : List Event
deriving DecidableEq, Repr

/-- The constructor `CRetroPlayerAudio::CRetroPlayerAudio`, before any call was
made. -/
def construct : Sys :=
  { audio := { m_pAudioStream := none, m_bAudioEnabled := true }, trace := [] }

/-- `CRetroPlayerAudio::CloseStream`. -/
def CloseStream (σ : Sys) : Sys :=
  match σ.audio.m_pAudioStream with
  | some stream =>
    { audio := { σ.audio with m_pAudioStream := none },
      trace := σ.trace ++ [Event.FreeStream stream] }
  | none => σ

/-- The destructor `CRetroPlayerAudio::~CRetroPlayerAudio`. -/
def destruct (σ : Sys) : Sys := CloseStream σ

/-- `CRetroPlayerAudio::OpenPCMStream`: the returned `bool` and the state
after the call. -/
def OpenPCMStream (host : Host) (format : AEDataFormat) (samplerate : Nat)
    (channelLayout : CAEChannelInfo) (σ : Sys) : Bool × Sys :=
  let σ₁ := if σ.audio.m_pAudioStream ≠ none then CloseStream σ else σ
  -- Resampling is not supported
  if NormalizeSamplerate samplerate ≠ samplerate then
    (false, σ₁)
  else
    let audioFormat : AEAudioFormat :=
      { m_dataFormat := format, m_sampleRate := samplerate, m_channelLayout := channelLayout }
    let made := host.MakeStream σ₁.trace audioFormat
    let σ₂ : Sys :=
      { audio := { σ₁.audio with m_pAudioStream := made },
        trace := σ₁.trace ++ [Event.MakeStream audioFormat made] }
    match made with
    | none => (false, σ₂)
    | some _ =>
      (true,
        { σ₂ with
          trace := σ₂.trace ++
            [Event.SetAudioChannels audioFormat.m_channelLayout,
             Event.SetAudioSampleRate audioFormat.m_sampleRate,
             Event.SetAudioBitsPerSample (host.DataFormatToUsedBits audioFormat.m_dataFormat)] })

/-- `CRetroPlayerAudio::OpenEncodedStream`: it logs and returns `true`. -/
def OpenEncodedStream (_codec : AVCodecID) (_samplerate : Nat)
    (_channelLayout : CAEChannelInfo) (σ : Sys) : Bool × Sys :=
  (true, σ)

/-- The `frameSize` that `AddData` computes for a stream: a product of two
`unsigned int` values, taken in `unsigned int`. -/
def frameSize (host : Host) (stream : IAEStream) : Nat :=
  (stream.channelCount * (host.DataFormatToBits stream.dataFormat >>> 3)) % UINT_RANGE

/-- `CRetroPlayerAudio::AddData`.  `none` is the division `size / frameSize`
with `frameSize = 0`, whose behaviour C++ leaves undefined.  The two stream
queries are listed in source order. -/
def AddData (host : Host) (data : List Nat) (size : Nat) (σ : Sys) : Option Sys :=
  if σ.audio.m_bAudioEnabled then
    match σ.audio.m_pAudioStream with
    | some stream =>
      if frameSize host stream = 0 then
        none
      else
        some { σ with
          trace := σ.trace ++
            [Event.GetChannelCount stream, Event.GetDataFormat stream,
             Event.StreamAddData stream data 0 ((size / frameSize host stream) % UINT_RANGE)] }
    | none => some σ
  else
    some σ

/-! ## Call sequences and handle accounting -/

/-- A call on the public interface of the bridge. -/
inductive Call where
  | OpenPCMStream (format : AEDataFormat) (samplerate : Nat) (channelLayout : CAEChannelInfo)
  | OpenEncodedStream (codec : AVCodecID) (samplerate : Nat) (channelLayout : CAEChannelInfo)
  | AddData (data : List Nat) (size : Nat)
  | CloseStream
deriving DecidableEq, Repr

/-- The state after one call; `none` when the call has no defined behaviour. -/
def step (host : Host) (σ : Sys) : Call → Option Sys
  | Call.OpenPCMStream format samplerate channelLayout =>
    some (OpenPCMStream host format samplerate channelLayout σ).2
  | Call.OpenEncodedStream codec samplerate channelLayout =>
    some (OpenEncodedStream codec samplerate channelLayout σ).2
  | Call.AddData data size => AddData host data size σ
  | Call.CloseStream => some (CloseStream σ)

/-- The state after a sequence of calls, made in list order. -/
def run (host : Host) : List Call → Sys → Option Sys
  | [], σ => some σ
  | c :: cs, σ =>
    match step host σ c with
    | some σ₁ => run host cs σ₁
    | none => none

/-- The audio-engine calls of a trace: `MakeStream` and `FreeStream`. -/
def factoryCalls (trace : List Event) : List Event :=
  trace.filter fun e =>
    match e with
    | Event.MakeStream _ _ => true
    | Event.FreeStream _ => true
    | _ => false

/-- The formats with which a trace asks the engine for a stream, one per
`MakeStream` call. -/
def makeRequests (trace : List Event) : List AEAudioFormat :=
  trace.filterMap fun e =>
    match e with
    | Event.MakeStream audioFormat _ => some audioFormat
    | _ => none

/-- The ingest calls of a trace: the calls `stream->AddData(...)`. -/
def ingestCalls (trace : List Event) : List Event :=
  trace.filter fun e =>
    match e with
    | Event.StreamAddData _ _ _ _ => true
    | _ => false

/-- The calls of a trace to the process info: `SetAudioChannels`,
`SetAudioSampleRate` and `SetAudioBitsPerSample`. -/
def metadataCalls (trace : List Event) : List Event :=
  trace.filter fun e =>
    match e with
    | Event.SetAudioChannels _ => true
    | Event.SetAudioSampleRate _ => true
    | Event.SetAudioBitsPerSample _ => true
    | _ => false

/-- Number of handles `MakeStream` returned in a trace. -/
def createdCount (trace : List Event) : Nat :=
  trace.countP fun e =>
    match e with
    | Event.MakeStream _ (some _) => true
    | _ => false

/-- Number of `FreeStream` calls in a trace. -/
def freedCount (trace : List Event) : Nat :=
  trace.countP fun e =>
    match e with
    | Event.FreeStream _ => true
    | _ => false

/-- Replays a trace against the engine's view of the live handle, starting
with `live`.  `MakeStream` may return a handle only when none is live,
`FreeStream` and the stream calls must name the live handle; the result is
`none` at the first violation (a handle freed twice or used after its release,
a handle created while another is live), else the handle live at the end. -/
def replay (live : Option IAEStream) : List Event → Option (Option IAEStream)
  | [] => some live
  | Event.MakeStream _ (some s) :: es =>
    if live = none then replay (some s) es else none
  | Event.FreeStream s :: es =>
    if live = some s then replay none es else none
  | Event.GetChannelCount s :: es =>
    if live = some s then replay live es else none
  | Event.GetDataFormat s :: es =>
    if live = some s then replay live es else none
  | Event.StreamAddData s _ _ _ :: es =>
    if live = some s then replay live es else none
  | _ :: es => replay live es

/-- The handle-balance invariant of a state: the trace is a lawful history
whose live handle is the one the bridge holds, and handles returned minus
handles freed is `1` when the bridge holds a stream and `0` otherwise. -/
def Balanced (σ : Sys) : Prop :=
  replay none σ.trace = some σ.audio.m_pAudioStream ∧
  createdCount σ.trace = freedCount σ.trace + (if σ.audio.m_pAudioStream.isSome then 1 else 0)

instance (σ : Sys) : Decidable (Balanced σ) := by
  unfold Balanced
  infer_instance

/-- A host whose engine always hands out the same stream. -/
def constHost (stream : IAEStream) : Host :=
  { MakeStream := fun _ _ => some stream
    DataFormatToBits := fun _ => 16
    DataFormatToUsedBits := fun _ => 16 }

/-- A stereo stream. -/
def stereoStream : IAEStream := { id := 1, channelCount := 2, dataFormat := 0 }

/-- A host whose engine always hands out the same stream and whose samples
are padded: 24 used bits in 32 stored bits. -/
def paddedHost (stream : IAEStream) : Host :=
  { MakeStream := fun _ _ => some stream
    DataFormatToBits := fun _ => 32
    DataFormatToUsedBits := fun _ => 24 }

/-- A bridge that holds `stream`, with the given mute flag and no calls made
yet. -/
def holding (stream : IAEStream) (enabled : Bool) : Sys :=
  { audio := { m_pAudioStream := some stream, m_bAudioEnabled := enabled }, trace := [] }

/-- A stream that reports no channels. -/
def silentStream : IAEStream := { id := 1, channelCount := 0, dataFormat := 0 }

/-! ## The normaliser in closed form -/

/-- The loop of `NormalizeSamplerate`, run from the start of the array with one
iteration per slot, returns from inside the loop with the value of this
cascade over the seven floor midpoints. -/
theorem normalizeLoop_closed (x : Nat) :
    normalizeLoop x sampleRateList.length 0 =
      some (if x < 6756 then 5512 else if x < 9512 then 8000 else if x < 13512 then 11025
        else if x < 19025 then 16000 else if x < 27025 then 22050
        else if x < 38050 then 32000 else if x < 46050 then 44100 else 48000) := by
  simp only [sampleRateList, List.length_cons, List.length_nil, normalizeLoop, UINT_RANGE]
  norm_num
  split_ifs <;> rfl

/-- Closed form of `NormalizeSamplerate`. -/
theorem NormalizeSamplerate_closed (x : Nat) :
    NormalizeSamplerate x =
      if x < 6756 then 5512 else if x < 9512 then 8000 else if x < 13512 then 11025
        else if x < 19025 then 16000 else if x < 27025 then 22050
        else if x < 38050 then 32000 else if x < 46050 then 44100 else 48000 := by
  unfold NormalizeSamplerate
  rw [normalizeLoop_closed]

/-- Every result of `NormalizeSamplerate` is a supported rate. -/
theorem NormalizeSamplerate_mem (x : Nat) : NormalizeSamplerate x ∈ supportedRates := by
  rw [NormalizeSamplerate_closed]
  split_ifs <;> simp [supportedRates]

/-- The supported rates are exactly the fixed points of `NormalizeSamplerate`. -/
theorem NormalizeSamplerate_eq_self_iff (x : Nat) :
    NormalizeSamplerate x = x ↔ x ∈ supportedRates := by
  rw [NormalizeSamplerate_closed]
  simp only [supportedRates, List.mem_cons, List.mem_singleton, List.mem_nil_iff, or_false]
  split_ifs <;> omega

/-- The distance `rateDist` as a sum of two truncated differences. -/
theorem rateDist_eq (a b : Nat) : rateDist a b = (b - a) + (a - b) := by
  unfold rateDist
  split_ifs <;> omega

/-! ## Claims about the normaliser -/

/-- C1: for every sample rate `x` (0 and rates above 48000 included) the loop
returns from inside, and `NormalizeSamplerate x` is an entry of the supported
table; it is never the `0` sentinel, and it is the raw input only when the
input is itself in the table. -/
theorem C1_normalize_in_table (x : Nat) :
    normalizeLoop x sampleRateList.length 0 = some (NormalizeSamplerate x) ∧
    NormalizeSamplerate x ∈ supportedRates ∧
    NormalizeSamplerate x ≠ 0 ∧
    (NormalizeSamplerate x = x ↔ x ∈ supportedRates) := by
  refine ⟨?_, NormalizeSamplerate_mem x, ?_, NormalizeSamplerate_eq_self_iff x⟩
  · rw [NormalizeSamplerate_closed, normalizeLoop_closed]
  · rw [NormalizeSamplerate_closed]
    split_ifs <;> decide

/-- C2: `NormalizeSamplerate` is idempotent, at every sample rate. -/
theorem C2_normalize_idempotent (x : Nat) :
    NormalizeSamplerate (NormalizeSamplerate x) = NormalizeSamplerate x :=
  (NormalizeSamplerate_eq_self_iff _).2 (NormalizeSamplerate_mem x)

/-- C3, as stated, fails: at 9512 the result 11025 is at distance 1513 while
the table entry 8000 is at distance 1512. -/
theorem C3_nearest_counterexample :
    ¬ (∀ x t : Nat, t ∈ supportedRates →
        rateDist x (NormalizeSamplerate x) ≤ rateDist x t) := by
  intro h
  have h₁ := h 9512 8000 (by decide)
  revert h₁
  decide

/-- C3, amended: `NormalizeSamplerate x` is a nearest supported rate for every
`x` other than 9512 and 13512, and at those two rates it is farther than the
nearest table entry by at most 1. -/
theorem C3_nearest_amended (x t : Nat) (ht : t ∈ supportedRates) :
    rateDist x (NormalizeSamplerate x) ≤
      rateDist x t + (if x = 9512 ∨ x = 13512 then 1 else 0) := by
  have hN := NormalizeSamplerate_closed x
  simp only [supportedRates, List.mem_cons, List.mem_singleton, List.mem_nil_iff,
    or_false] at ht
  rw [rateDist_eq, rateDist_eq]
  split_ifs at hN <;> split_ifs <;> omega

/-- Witness for C3, amended, at the midpoint 9512 and the entry 8000. -/
theorem C3_nearest_amended_witness :
    8000 ∈ supportedRates ∧
    rateDist 9512 (NormalizeSamplerate 9512) ≤
      rateDist 9512 8000 + (if 9512 = 9512 ∨ 9512 = 13512 then 1 else 0) :=
  ⟨by decide, C3_nearest_amended 9512 8000 (by decide)⟩

/-- C4, as stated, fails: the exact midpoint 46050 is mapped to 48000. -/
theorem C4_midpoint_counterexample :
    ¬ (NormalizeSamplerate 46050 = 44100 ∧ NormalizeSamplerate 46051 = 48000) := by
  decide

/-- C4, amended: the midpoint tie-break goes to the higher rate:
`NormalizeSamplerate 46050 = 48000`, while 46049 is mapped to 44100 and 46051
to 48000. -/
theorem C4_midpoint_amended :
    NormalizeSamplerate 46049 = 44100 ∧ NormalizeSamplerate 46050 = 48000 ∧
    NormalizeSamplerate 46051 = 48000 := by
  decide

/-- C5: `NormalizeSamplerate` equals the reference table walk over the
supported table: the first entry whose successor puts `x` below their floor
midpoint, and the table maximum 48000 when no pair does. -/
theorem C5_normalize_eq_referenceWalk (x : Nat) :
    NormalizeSamplerate x = referenceWalk supportedRates x ∧
    supportedRates.getLastD 0 = 48000 := by
  refine ⟨?_, rfl⟩
  rw [NormalizeSamplerate_closed]
  simp only [referenceWalk, adjacentPairs, supportedRates, List.tail_cons, List.zip_cons_cons,
    List.zip_nil_right, List.find?_cons, List.find?_nil]
  norm_num
  by_cases h₁ : x < 6756
  · simp [h₁]
  by_cases h₂ : x < 9512
  · simp [h₁, h₂]
  by_cases h₃ : x < 13512
  · simp [h₁, h₂, h₃]
  by_cases h₄ : x < 19025
  · simp [h₁, h₂, h₃, h₄]
  by_cases h₅ : x < 27025
  · simp [h₁, h₂, h₃, h₄, h₅]
  by_cases h₆ : x < 38050
  · simp [h₁, h₂, h₃, h₄, h₅, h₆]
  by_cases h₇ : x < 46050
  · simp [h₁, h₂, h₃, h₄, h₅, h₆, h₇]
  · simp [h₁, h₂, h₃, h₄, h₅, h₆, h₇]

/-- C6: every sample rate at or above 48000 is mapped to 48000. -/
theorem C6_ceiling_clamp (x : Nat) (h : 48000 ≤ x) : NormalizeSamplerate x = 48000 := by
  rw [NormalizeSamplerate_closed]
  split_ifs <;> omega

/-- Witness for C6 at 96000. -/
theorem C6_ceiling_clamp_witness : 48000 ≤ 96000 ∧ NormalizeSamplerate 96000 = 48000 :=
  ⟨by decide, C6_ceiling_clamp 96000 (by decide)⟩

/-! ## Stream life cycle -/

/-- The guarded call `if (m_pAudioStream != nullptr) CloseStream();` acts as
`CloseStream` itself. -/
theorem guarded_close (σ : Sys) :
    (if σ.audio.m_pAudioStream ≠ none then CloseStream σ else σ) = CloseStream σ := by
  unfold CloseStream
  cases h : σ.audio.m_pAudioStream <;> simp

/-- After `CloseStream` the bridge holds no stream. -/
theorem CloseStream_stream (σ : Sys) : (CloseStream σ).audio.m_pAudioStream = none := by
  unfold CloseStream
  cases h : σ.audio.m_pAudioStream <;> simp [h]

/-- The enabled flag is not touched by `CloseStream`. -/
theorem CloseStream_enabled (σ : Sys) :
    (CloseStream σ).audio.m_bAudioEnabled = σ.audio.m_bAudioEnabled := by
  unfold CloseStream
  cases h : σ.audio.m_pAudioStream <;> simp

/-- The calls `CloseStream` makes: one `FreeStream` of the held stream, if any. -/
theorem CloseStream_trace (σ : Sys) :
    (CloseStream σ).trace = σ.trace ++
      (match σ.audio.m_pAudioStream with
       | some stream => [Event.FreeStream stream]
       | none => []) := by
  unfold CloseStream
  cases h : σ.audio.m_pAudioStream <;> simp

/-- `OpenPCMStream` at a rate the normaliser changes: it closes and fails. -/
theorem OpenPCMStream_unsupported (host : Host) (format : AEDataFormat) (samplerate : Nat)
    (channelLayout : CAEChannelInfo) (σ : Sys) (h : NormalizeSamplerate samplerate ≠ samplerate) :
    OpenPCMStream host format samplerate channelLayout σ = (false, CloseStream σ) := by
  unfold OpenPCMStream
  simp only [guarded_close]
  rw [if_pos h]

/-- `OpenPCMStream` at a rate the normaliser keeps: it closes, asks the engine
once and reports the metadata when a stream came back. -/
theorem OpenPCMStream_supported (host : Host) (format : AEDataFormat) (samplerate : Nat)
    (channelLayout : CAEChannelInfo) (σ : Sys) (h : NormalizeSamplerate samplerate = samplerate) :
    OpenPCMStream host format samplerate channelLayout σ =
      ((host.MakeStream (CloseStream σ).trace ⟨format, samplerate, channelLayout⟩).isSome,
        { audio :=
            { m_pAudioStream := host.MakeStream (CloseStream σ).trace ⟨format, samplerate, channelLayout⟩
              m_bAudioEnabled := σ.audio.m_bAudioEnabled }
          trace := (CloseStream σ).trace ++
            Event.MakeStream ⟨format, samplerate, channelLayout⟩
                (host.MakeStream (CloseStream σ).trace ⟨format, samplerate, channelLayout⟩) ::
              (if (host.MakeStream (CloseStream σ).trace ⟨format, samplerate, channelLayout⟩).isSome then
                [Event.SetAudioChannels channelLayout, Event.SetAudioSampleRate samplerate,
                 Event.SetAudioBitsPerSample (host.DataFormatToUsedBits format)]
               else []) }) := by
  unfold OpenPCMStream
  simp only [guarded_close]
  rw [if_neg (not_not.mpr h)]
  cases hm : host.MakeStream (CloseStream σ).trace ⟨format, samplerate, channelLayout⟩ <;>
    simp [CloseStream_enabled]

/-- C7: at a sample rate outside the supported table, for every format,
layout, host and prior state, `OpenPCMStream` returns `false`, leaves the bridge
without a stream, and the only call it makes is the `FreeStream` of a stream
that was open: no `MakeStream` request is added. -/
theorem C7_open_rejects_unsupported_rate (host : Host) (format : AEDataFormat)
    (samplerate : Nat) (channelLayout : CAEChannelInfo) (σ : Sys)
    (h : samplerate ∉ supportedRates) :
    (OpenPCMStream host format samplerate channelLayout σ).1 = false ∧
    (OpenPCMStream host format samplerate channelLayout σ).2.audio.m_pAudioStream = none ∧
    (OpenPCMStream host format samplerate channelLayout σ).2.audio.m_bAudioEnabled =
      σ.audio.m_bAudioEnabled ∧
    (OpenPCMStream host format samplerate channelLayout σ).2.trace = σ.trace ++
      (match σ.audio.m_pAudioStream with
       | some stream => [Event.FreeStream stream]
       | none => []) ∧
    makeRequests (OpenPCMStream host format samplerate channelLayout σ).2.trace =
      makeRequests σ.trace := by
  have hne : NormalizeSamplerate samplerate ≠ samplerate :=
    fun e => h ((NormalizeSamplerate_eq_self_iff samplerate).1 e)
  rw [OpenPCMStream_unsupported host format samplerate channelLayout σ hne]
  refine ⟨rfl, CloseStream_stream σ, CloseStream_enabled σ, CloseStream_trace σ, ?_⟩
  show makeRequests (CloseStream σ).trace = makeRequests σ.trace
  rw [CloseStream_trace]
  cases σ.audio.m_pAudioStream <;> simp [makeRequests, List.filterMap_append]

/-- Witness for C7: rate 45000 on a bridge that holds a stream. -/
theorem C7_open_rejects_unsupported_rate_witness :
    45000 ∉ supportedRates ∧
    (OpenPCMStream (constHost stereoStream) 0 45000 [0, 1]
        { audio := { m_pAudioStream := some stereoStream, m_bAudioEnabled := true },
          trace := [] }).2.trace = [Event.FreeStream stereoStream] :=
  ⟨by decide,
    (C7_open_rejects_unsupported_rate (constHost stereoStream) 0 45000 [0, 1]
      { audio := { m_pAudioStream := some stereoStream, m_bAudioEnabled := true },
        trace := [] } (by decide)).2.2.2.1⟩

/-- C8: at a supported sample rate `OpenPCMStream` adds exactly one
`MakeStream` request, carrying the given format, rate and layout; it returns
`true` exactly when the engine returned a handle, and afterwards the bridge
holds what the engine returned (that handle, or nothing). -/
theorem C8_open_supported_rate (host : Host) (format : AEDataFormat) (samplerate : Nat)
    (channelLayout : CAEChannelInfo) (σ : Sys) (h : samplerate ∈ supportedRates) :
    (OpenPCMStream host format samplerate channelLayout σ).1 =
      (host.MakeStream (CloseStream σ).trace ⟨format, samplerate, channelLayout⟩).isSome ∧
    (OpenPCMStream host format samplerate channelLayout σ).2.audio.m_pAudioStream =
      host.MakeStream (CloseStream σ).trace ⟨format, samplerate, channelLayout⟩ ∧
    makeRequests (OpenPCMStream host format samplerate channelLayout σ).2.trace =
      makeRequests σ.trace ++ [⟨format, samplerate, channelLayout⟩] ∧
    (OpenPCMStream host format samplerate channelLayout σ).2.trace =
      (CloseStream σ).trace ++
        Event.MakeStream ⟨format, samplerate, channelLayout⟩
            (host.MakeStream (CloseStream σ).trace ⟨format, samplerate, channelLayout⟩) ::
          (if (host.MakeStream (CloseStream σ).trace ⟨format, samplerate, channelLayout⟩).isSome then
            [Event.SetAudioChannels channelLayout, Event.SetAudioSampleRate samplerate,
             Event.SetAudioBitsPerSample (host.DataFormatToUsedBits format)]
           else []) := by
  have he : NormalizeSamplerate samplerate = samplerate :=
    (NormalizeSamplerate_eq_self_iff samplerate).2 h
  rw [OpenPCMStream_supported host format samplerate channelLayout σ he]
  refine ⟨rfl, rfl, ?_, rfl⟩
  simp only [CloseStream_trace]
  cases σ.audio.m_pAudioStream <;>
    cases host.MakeStream _ (⟨format, samplerate, channelLayout⟩ : AEAudioFormat) <;>
    simp [makeRequests, List.filterMap_append, List.filterMap_cons]

/-- Witness for C8: rate 44100 on a newly constructed bridge. -/
theorem C8_open_supported_rate_witness :
    44100 ∈ supportedRates ∧
    (OpenPCMStream (constHost stereoStream) 0 44100 [0, 1] construct).1 = true ∧
    (OpenPCMStream (constHost stereoStream) 0 44100 [0, 1] construct).2.audio.m_pAudioStream =
      some stereoStream :=
  ⟨by decide,
    (C8_open_supported_rate (constHost stereoStream) 0 44100 [0, 1] construct (by decide)).1,
    (C8_open_supported_rate (constHost stereoStream) 0 44100 [0, 1] construct (by decide)).2.1⟩

/-- C9: when `OpenPCMStream` is called while the bridge holds `stream`, the
first call it makes is `FreeStream stream` and it makes no other `FreeStream`
call, so the release comes before any `MakeStream` of that call.  If moreover
the state came from a successful open on a bridge without a stream, and this
open succeeds as well, the audio-engine calls are create, free of the first
handle, create. -/
theorem C9_reopen_order (host : Host) (σ : Sys) (stream : IAEStream)
    (hσ : σ.audio.m_pAudioStream = some stream) (format : AEDataFormat) (samplerate : Nat)
    (channelLayout : CAEChannelInfo) :
    (∃ rest, (OpenPCMStream host format samplerate channelLayout σ).2.trace =
        σ.trace ++ Event.FreeStream stream :: rest ∧ freedCount rest = 0) ∧
    (∀ (σ₀ : Sys) (format₀ : AEDataFormat) (samplerate₀ : Nat) (layout₀ : CAEChannelInfo),
      σ₀.audio.m_pAudioStream = none →
      OpenPCMStream host format₀ samplerate₀ layout₀ σ₀ = (true, σ) →
      (OpenPCMStream host format samplerate channelLayout σ).1 = true →
      ∃ second, (OpenPCMStream host format samplerate channelLayout σ).2.audio.m_pAudioStream =
          some second ∧
        factoryCalls (OpenPCMStream host format samplerate channelLayout σ).2.trace =
          factoryCalls σ₀.trace ++
            [Event.MakeStream ⟨format₀, samplerate₀, layout₀⟩ (some stream),
             Event.FreeStream stream,
             Event.MakeStream ⟨format, samplerate, channelLayout⟩ (some second)]) := by
  have hclose : (CloseStream σ).trace = σ.trace ++ [Event.FreeStream stream] := by
    rw [CloseStream_trace, hσ]
  constructor
  · by_cases hn : NormalizeSamplerate samplerate = samplerate
    · rw [OpenPCMStream_supported host format samplerate channelLayout σ hn]
      refine ⟨_, by simp only [hclose, List.append_assoc, List.singleton_append]; rfl, ?_⟩
      cases host.MakeStream (σ.trace ++ [Event.FreeStream stream])
        (⟨format, samplerate, channelLayout⟩ : AEAudioFormat) <;> simp [freedCount]
    · rw [OpenPCMStream_unsupported host format samplerate channelLayout σ hn]
      exact ⟨[], hclose, rfl⟩
  · intro σ₀ format₀ samplerate₀ layout₀ h₀ hfirst hsecond
    have hc₀ : CloseStream σ₀ = σ₀ := by unfold CloseStream; rw [h₀]
    by_cases hn₀ : NormalizeSamplerate samplerate₀ = samplerate₀
    swap
    · rw [OpenPCMStream_unsupported host format₀ samplerate₀ layout₀ σ₀ hn₀] at hfirst
      exact absurd (congrArg Prod.fst hfirst) (by simp)
    rw [OpenPCMStream_supported host format₀ samplerate₀ layout₀ σ₀ hn₀, hc₀] at hfirst
    have hmade : host.MakeStream σ₀.trace ⟨format₀, samplerate₀, layout₀⟩ = some stream := by
      have := congrArg (fun p => p.2.audio.m_pAudioStream) hfirst
      simpa [hσ] using this
    have htrace : σ.trace = σ₀.trace ++
        [Event.MakeStream ⟨format₀, samplerate₀, layout₀⟩ (some stream),
         Event.SetAudioChannels layout₀, Event.SetAudioSampleRate samplerate₀,
         Event.SetAudioBitsPerSample (host.DataFormatToUsedBits format₀)] := by
      have := congrArg (fun p => p.2.trace) hfirst
      simp only [hmade, Option.isSome_some, if_true] at this
      exact this.symm
    by_cases hn : NormalizeSamplerate samplerate = samplerate
    swap
    · rw [OpenPCMStream_unsupported host format samplerate channelLayout σ hn] at hsecond
      exact absurd hsecond (by simp)
    rw [OpenPCMStream_supported host format samplerate channelLayout σ hn] at hsecond ⊢
    simp only [hclose] at hsecond ⊢
    cases hm : host.MakeStream (σ.trace ++ [Event.FreeStream stream])
        (⟨format, samplerate, channelLayout⟩ : AEAudioFormat) with
    | none => rw [hm] at hsecond; exact absurd hsecond (by simp)
    | some second =>
      refine ⟨second, rfl, ?_⟩
      simp [htrace, factoryCalls, List.filter_append, List.filter_cons]

/-- Witness for C9: two successful opens on a newly constructed bridge. -/
theorem C9_reopen_order_witness :
    factoryCalls
        (OpenPCMStream (constHost stereoStream) 0 48000 [0, 1]
          (OpenPCMStream (constHost stereoStream) 0 44100 [0, 1] construct).2).2.trace =
      [Event.MakeStream ⟨0, 44100, [0, 1]⟩ (some stereoStream),
       Event.FreeStream stereoStream,
       Event.MakeStream ⟨0, 48000, [0, 1]⟩ (some stereoStream)] := by
  obtain ⟨second, h₁, h₂⟩ :=
    (C9_reopen_order (constHost stereoStream)
      (OpenPCMStream (constHost stereoStream) 0 44100 [0, 1] construct).2 stereoStream rfl
      0 48000 [0, 1]).2 construct 0 44100 [0, 1] rfl rfl rfl
  have hs : second = stereoStream := (Option.some.inj h₁).symm
  rw [h₂, hs]
  rfl

/-! ## Handle accounting -/

/-- Replaying a trace in two parts. -/
theorem replay_append (es₁ es₂ : List Event) (live : Option IAEStream) :
    replay live (es₁ ++ es₂) = (replay live es₁).bind fun l => replay l es₂ := by
  induction es₁ generalizing live with
  | nil => simp [replay]
  | cons e es ih =>
    cases e with
    | MakeStream audioFormat result =>
      cases result with
      | none => simp [replay, ih]
      | some s =>
        by_cases h : live = none <;> simp [replay, ih, h]
    | FreeStream s => by_cases h : live = some s <;> simp [replay, ih, h]
    | GetChannelCount s => by_cases h : live = some s <;> simp [replay, ih, h]
    | GetDataFormat s => by_cases h : live = some s <;> simp [replay, ih, h]
    | StreamAddData s data offset frames =>
      by_cases h : live = some s <;> simp [replay, ih, h]
    | SetAudioChannels layout => simp [replay, ih]
    | SetAudioSampleRate rate => simp [replay, ih]
    | SetAudioBitsPerSample bits => simp [replay, ih]

/-- Extending a balanced state by calls that are lawful from the held handle
and that keep the count gives a balanced state. -/
theorem Balanced_extend (σ : Sys) (es : List Event) (held : Option IAEStream) (enabled : Bool)
    (hσ : Balanced σ) (hreplay : replay σ.audio.m_pAudioStream es = some held)
    (hcount : createdCount es + (if σ.audio.m_pAudioStream.isSome then 1 else 0) =
      freedCount es + (if held.isSome then 1 else 0)) :
    Balanced { audio := { m_pAudioStream := held, m_bAudioEnabled := enabled },
               trace := σ.trace ++ es } := by
  obtain ⟨h₁, h₂⟩ := hσ
  constructor
  · show replay none (σ.trace ++ es) = some held
    rw [replay_append, h₁]
    exact hreplay
  · show createdCount (σ.trace ++ es) = freedCount (σ.trace ++ es) + (if held.isSome then 1 else 0)
    unfold createdCount freedCount at *
    rw [List.countP_append, List.countP_append]
    omega

/-- A newly constructed bridge is balanced. -/
theorem Balanced_construct : Balanced construct :=
  ⟨rfl, rfl⟩

/-- `CloseStream` keeps the balance. -/
theorem Balanced_CloseStream (σ : Sys) (hσ : Balanced σ) : Balanced (CloseStream σ) := by
  unfold CloseStream
  cases h : σ.audio.m_pAudioStream with
  | none => simpa using hσ
  | some s =>
    exact Balanced_extend σ [Event.FreeStream s] none σ.audio.m_bAudioEnabled hσ
      (by simp [h, replay]) (by simp [h, createdCount, freedCount])

/-- `OpenPCMStream` keeps the balance, whatever the engine answers. -/
theorem Balanced_OpenPCMStream (host : Host) (format : AEDataFormat) (samplerate : Nat)
    (channelLayout : CAEChannelInfo) (σ : Sys) (hσ : Balanced σ) :
    Balanced (OpenPCMStream host format samplerate channelLayout σ).2 := by
  have hc := Balanced_CloseStream σ hσ
  have hs := CloseStream_stream σ
  by_cases hn : NormalizeSamplerate samplerate = samplerate
  · rw [OpenPCMStream_supported host format samplerate channelLayout σ hn]
    cases hm : host.MakeStream (CloseStream σ).trace
        (⟨format, samplerate, channelLayout⟩ : AEAudioFormat) with
    | none =>
      exact Balanced_extend (CloseStream σ) _ none σ.audio.m_bAudioEnabled hc
        (by simp [hs, replay]) (by simp [hs, createdCount, freedCount])
    | some s =>
      exact Balanced_extend (CloseStream σ) _ (some s) σ.audio.m_bAudioEnabled hc
        (by simp [hs, replay]) (by simp [hs, createdCount, freedCount])
  · rw [OpenPCMStream_unsupported host format samplerate channelLayout σ hn]
    exact hc

/-- `AddData` keeps the balance whenever its behaviour is defined. -/
theorem Balanced_AddData (host : Host) (data : List Nat) (size : Nat) (σ σ₁ : Sys)
    (hσ : Balanced σ) (h : AddData host data size σ = some σ₁) : Balanced σ₁ := by
  unfold AddData at h
  by_cases he : σ.audio.m_bAudioEnabled = true
  · rw [if_pos he] at h
    cases hs : σ.audio.m_pAudioStream with
    | none =>
      rw [hs] at h
      cases Option.some.inj h
      exact hσ
    | some s =>
      rw [hs] at h
      by_cases hf : frameSize host s = 0
      · simp [hf] at h
      · simp only [hf, if_false] at h
        cases Option.some.inj h
        have := Balanced_extend σ
          [Event.GetChannelCount s, Event.GetDataFormat s,
           Event.StreamAddData s data 0 ((size / frameSize host s) % UINT_RANGE)]
          (some s) σ.audio.m_bAudioEnabled hσ
          (by simp [hs, replay]) (by simp [hs, createdCount, freedCount])
        rw [← hs] at this
        exact this
  · rw [if_neg he] at h
    cases Option.some.inj h
    exact hσ

/-- Every call with defined behaviour keeps the balance. -/
theorem Balanced_step (host : Host) (c : Call) (σ σ₁ : Sys) (hσ : Balanced σ)
    (h : step host σ c = some σ₁) : Balanced σ₁ := by
  cases c with
  | OpenPCMStream format samplerate channelLayout =>
    cases Option.some.inj h
    exact Balanced_OpenPCMStream host format samplerate channelLayout σ hσ
  | OpenEncodedStream codec samplerate channelLayout =>
    cases Option.some.inj h
    exact hσ
  | AddData data size => exact Balanced_AddData host data size σ σ₁ hσ h
  | CloseStream =>
    cases Option.some.inj h
    exact Balanced_CloseStream σ hσ

/-- Every call sequence with defined behaviour keeps the balance. -/
theorem Balanced_run (host : Host) (calls : List Call) (σ σ₁ : Sys) (hσ : Balanced σ)
    (h : run host calls σ = some σ₁) : Balanced σ₁ := by
  induction calls generalizing σ with
  | nil =>
    cases Option.some.inj h
    exact hσ
  | cons c cs ih =>
    unfold run at h
    cases hc : step host σ c with
    | none => rw [hc] at h; exact absurd h (by simp)
    | some σ₂ =>
      rw [hc] at h
      exact ih σ₂ (Balanced_step host c σ σ₂ hσ hc) h

/-- The stream held after `OpenPCMStream` is one the engine handed out during
the call. -/
theorem OpenPCMStream_stream_origin (host : Host) (format : AEDataFormat) (samplerate : Nat)
    (channelLayout : CAEChannelInfo) (σ : Sys) (s : IAEStream)
    (h : (OpenPCMStream host format samplerate channelLayout σ).2.audio.m_pAudioStream = some s) :
    ∃ t f, host.MakeStream t f = some s := by
  by_cases hn : NormalizeSamplerate samplerate = samplerate
  · rw [OpenPCMStream_supported host format samplerate channelLayout σ hn] at h
    exact ⟨_, _, h⟩
  · rw [OpenPCMStream_unsupported host format samplerate channelLayout σ hn,
      CloseStream_stream] at h
    exact absurd h (by simp)

/-- When every stream the engine hands out has a non-zero frame size, and the
held stream (if any) has one, every call sequence has defined behaviour. -/
theorem run_defined (host : Host)
    (hpos : ∀ t f s, host.MakeStream t f = some s → frameSize host s ≠ 0)
    (calls : List Call) (σ : Sys)
    (hσ : ∀ s, σ.audio.m_pAudioStream = some s → frameSize host s ≠ 0) :
    ∃ σ₁, run host calls σ = some σ₁ := by
  induction calls generalizing σ with
  | nil => exact ⟨σ, rfl⟩
  | cons c cs ih =>
    unfold run
    cases c with
    | OpenPCMStream format samplerate channelLayout =>
      refine ih _ fun s hs => ?_
      obtain ⟨t, f, hm⟩ :=
        OpenPCMStream_stream_origin host format samplerate channelLayout σ s hs
      exact hpos t f s hm
    | OpenEncodedStream codec samplerate channelLayout => exact ih σ hσ
    | CloseStream =>
      refine ih _ fun s hs => ?_
      rw [CloseStream_stream] at hs
      exact absurd hs (by simp)
    | AddData data size =>
      simp only [step, AddData]
      by_cases he : σ.audio.m_bAudioEnabled = true
      · rw [if_pos he]
        cases hs : σ.audio.m_pAudioStream with
        | none => exact ih σ hσ
        | some s =>
          simp only [hσ s hs, if_false]
          exact ih _ fun s₁ hs₁ => hσ s₁ hs₁
      · rw [if_neg he]
        exact ih σ hσ

/-! ## Claim about handle accounting -/

/-- C10, as stated, fails: when the engine hands out a stream with no
channels, opening at 44100 and then adding data divides by a zero frame size,
so this call sequence reaches no state at all. -/
theorem C10_handle_balance_counterexample :
    ¬ ∃ σ, run (constHost silentStream)
        [Call.OpenPCMStream 0 44100 [], Call.AddData [] 10] construct = some σ ∧ Balanced σ := by
  rintro ⟨σ, h, -⟩
  have hnone : run (constHost silentStream)
      [Call.OpenPCMStream 0 44100 [], Call.AddData [] 10] construct = none := by decide
  rw [hnone] at h
  exact absurd h (by simp)

/-- C10, amended: after every finite sequence of `OpenPCMStream`,
`OpenEncodedStream`, `AddData` and `CloseStream` calls on a newly constructed
bridge that has defined behaviour (no `AddData` divides by a zero frame size),
whatever the engine answers, the trace is a lawful handle history (nothing
freed twice, nothing created while a handle is live), handles returned minus
handles freed is 1 if the bridge holds a stream and 0 otherwise, and after the
destructor the two counts are equal and no stream is held.  Every sequence has
defined behaviour when the engine only hands out streams of non-zero frame
size.  Construct, one successful open, destroy makes exactly one `FreeStream`
call. -/
theorem C10_handle_balance (host : Host) (calls : List Call) :
    (∀ σ, run host calls construct = some σ →
      Balanced σ ∧ Balanced (destruct σ) ∧ (destruct σ).audio.m_pAudioStream = none ∧
      createdCount (destruct σ).trace = freedCount (destruct σ).trace) ∧
    ((∀ t f s, host.MakeStream t f = some s → frameSize host s ≠ 0) →
      ∃ σ, run host calls construct = some σ) ∧
    (∀ (format : AEDataFormat) (samplerate : Nat) (channelLayout : CAEChannelInfo),
      (OpenPCMStream host format samplerate channelLayout construct).1 = true →
      createdCount (destruct (OpenPCMStream host format samplerate channelLayout construct).2).trace
        = 1 ∧
      freedCount (destruct (OpenPCMStream host format samplerate channelLayout construct).2).trace
        = 1) := by
  refine ⟨fun σ h => ?_, fun hpos => ?_, fun format samplerate channelLayout hopen => ?_⟩
  · have hb := Balanced_run host calls construct σ Balanced_construct h
    have hd := Balanced_CloseStream σ hb
    refine ⟨hb, hd, CloseStream_stream σ, ?_⟩
    have := hd.2
    rw [CloseStream_stream] at this
    simpa [destruct] using this
  · exact run_defined host hpos calls construct (fun s hs => absurd hs (by simp [construct]))
  · by_cases hn : NormalizeSamplerate samplerate = samplerate
    · rw [OpenPCMStream_supported host format samplerate channelLayout construct hn] at hopen ⊢
      have hc : CloseStream construct = construct := rfl
      rw [hc] at hopen ⊢
      cases hm : host.MakeStream construct.trace
          (⟨format, samplerate, channelLayout⟩ : AEAudioFormat) with
      | none => rw [hm] at hopen; exact absurd hopen (by simp)
      | some s => simp [destruct, CloseStream, construct, createdCount, freedCount]
    · rw [OpenPCMStream_unsupported host format samplerate channelLayout construct hn] at hopen
      exact absurd hopen (by simp)

/-- Witness for C10, amended: open, add data, reopen, close on a stereo
stream. -/
theorem C10_handle_balance_witness :
    Balanced
      { audio := { m_pAudioStream := none, m_bAudioEnabled := true },
        trace :=
          [Event.MakeStream ⟨0, 44100, [0, 1]⟩ (some stereoStream),
           Event.SetAudioChannels [0, 1], Event.SetAudioSampleRate 44100,
           Event.SetAudioBitsPerSample 16,
           Event.GetChannelCount stereoStream, Event.GetDataFormat stereoStream,
           Event.StreamAddData stereoStream [] 0 2,
           Event.FreeStream stereoStream,
           Event.MakeStream ⟨0, 48000, [0, 1]⟩ (some stereoStream),
           Event.SetAudioChannels [0, 1], Event.SetAudioSampleRate 48000,
           Event.SetAudioBitsPerSample 16,
           Event.FreeStream stereoStream] } :=
  ((C10_handle_balance (constHost stereoStream)
      [Call.OpenPCMStream 0 44100 [0, 1], Call.AddData [] 10,
       Call.OpenPCMStream 0 48000 [0, 1], Call.CloseStream]).1 _ (by decide)).1

/-! ## Claims about closing and the data relay -/

/-- `AddData` on an enabled bridge that holds a stream of non-zero frame size:
the two stream queries, then one ingest call. -/
theorem AddData_streaming (host : Host) (data : List Nat) (size : Nat) (σ : Sys)
    (stream : IAEStream) (he : σ.audio.m_bAudioEnabled = true)
    (hs : σ.audio.m_pAudioStream = some stream) (hf : frameSize host stream ≠ 0) :
    AddData host data size σ =
      some { σ with
        trace := σ.trace ++
          [Event.GetChannelCount stream, Event.GetDataFormat stream,
           Event.StreamAddData stream data 0 ((size / frameSize host stream) % UINT_RANGE)] } := by
  unfold AddData
  rw [if_pos he, hs]
  simp only [hf, if_false]

/-- The ingest calls after the calls of a streaming `AddData`. -/
theorem ingestCalls_streaming (trace : List Event) (stream : IAEStream) (data : List Nat)
    (frames : Nat) :
    ingestCalls (trace ++ [Event.GetChannelCount stream, Event.GetDataFormat stream,
        Event.StreamAddData stream data 0 frames]) =
      ingestCalls trace ++ [Event.StreamAddData stream data 0 frames] := by
  simp [ingestCalls, List.filter_append, List.filter_cons]

/-- C11: `CloseStream` is idempotent.  It leaves no stream and does not touch
the mute flag; the only call it makes is one `FreeStream` of the held handle,
and none when no stream is held, in which case nothing changes; a second
`CloseStream` changes nothing and adds no `FreeStream` call. -/
theorem C11_close_idempotent (σ : Sys) :
    CloseStream (CloseStream σ) = CloseStream σ ∧
    (CloseStream σ).audio.m_pAudioStream = none ∧
    (CloseStream σ).audio.m_bAudioEnabled = σ.audio.m_bAudioEnabled ∧
    (CloseStream σ).trace = σ.trace ++
      (match σ.audio.m_pAudioStream with
       | some stream => [Event.FreeStream stream]
       | none => []) ∧
    freedCount (CloseStream (CloseStream σ)).trace =
      freedCount σ.trace + (if σ.audio.m_pAudioStream.isSome then 1 else 0) ∧
    (σ.audio.m_pAudioStream = none → CloseStream σ = σ) := by
  have hidem : CloseStream (CloseStream σ) = CloseStream σ := by
    have h := CloseStream_stream σ
    generalize CloseStream σ = τ at h
    unfold CloseStream
    rw [h]
  refine ⟨hidem, CloseStream_stream σ, CloseStream_enabled σ, CloseStream_trace σ, ?_, ?_⟩
  · rw [hidem, CloseStream_trace]
    cases σ.audio.m_pAudioStream <;> simp [freedCount, List.countP_append]
  · intro h
    unfold CloseStream
    rw [h]

/-- Witness for C11: closing twice a bridge that holds the stereo stream frees
it once; closing a newly constructed bridge changes nothing. -/
theorem C11_close_idempotent_witness :
    freedCount (CloseStream (CloseStream (holding stereoStream true))).trace = 1 ∧
    CloseStream construct = construct :=
  ⟨(C11_close_idempotent (holding stereoStream true)).2.2.2.2.1,
    (C11_close_idempotent construct).2.2.2.2.2 rfl⟩

/-- C12: when the bridge is muted or holds no stream, `AddData` returns with
the state and the trace as they were, for every buffer and size: no ingest
call and no stream query is made. -/
theorem C12_add_data_dropped (host : Host) (data : List Nat) (size : Nat) (σ : Sys)
    (h : σ.audio.m_bAudioEnabled = false ∨ σ.audio.m_pAudioStream = none) :
    AddData host data size σ = some σ := by
  unfold AddData
  rcases h with h | h
  · simp [h]
  · rw [h]
    simp

/-- Witness for C12: a muted bridge that holds the stereo stream. -/
theorem C12_add_data_dropped_witness :
    ((holding stereoStream false).audio.m_bAudioEnabled = false ∨
      (holding stereoStream false).audio.m_pAudioStream = none) ∧
    AddData (constHost stereoStream) [1, 2, 3, 4] 4 (holding stereoStream false) =
      some (holding stereoStream false) :=
  ⟨Or.inl rfl,
    C12_add_data_dropped (constHost stereoStream) [1, 2, 3, 4] 4 (holding stereoStream false)
      (Or.inl rfl)⟩

/-- C13, as stated, fails: with frame size 4 and byte length `2 ^ 34` the
quotient is `2 ^ 32`, and the ingest call is made with 0 frames. -/
theorem C13_frame_count_counterexample :
    ¬ (∀ (host : Host) (data : List Nat) (n : Nat) (σ : Sys) (stream : IAEStream),
        σ.audio.m_bAudioEnabled = true → σ.audio.m_pAudioStream = some stream →
        0 < stream.channelCount * (host.DataFormatToBits stream.dataFormat >>> 3) →
        ∃ σ₁, AddData host data n σ = some σ₁ ∧
          ingestCalls σ₁.trace = ingestCalls σ.trace ++
            [Event.StreamAddData stream data 0
              (n / (stream.channelCount * (host.DataFormatToBits stream.dataFormat >>> 3)))]) := by
  intro h
  obtain ⟨σ₁, h₁, h₂⟩ :=
    h (constHost stereoStream) [] 17179869184 (holding stereoStream true) stereoStream rfl rfl
      (by decide)
  have hrun : AddData (constHost stereoStream) [] 17179869184 (holding stereoStream true) =
      some { holding stereoStream true with trace := [Event.GetChannelCount stereoStream,
        Event.GetDataFormat stereoStream, Event.StreamAddData stereoStream [] 0 0] } := by
    decide
  rw [hrun] at h₁
  cases Option.some.inj h₁
  revert h₂
  decide

/-- C13, amended: for every byte length `n` whose quotient by the frame size
is below `2 ^ 32`, when the bridge is enabled and holds a stream whose frame
size `f` (as `AddData` computes it) is positive, `AddData` makes exactly one
ingest call, with offset 0 and `n / f` frames; the `n % f` trailing bytes,
fewer than `f`, are not forwarded. -/
theorem C13_frame_count (host : Host) (data : List Nat) (n : Nat) (σ : Sys)
    (stream : IAEStream) (he : σ.audio.m_bAudioEnabled = true)
    (hs : σ.audio.m_pAudioStream = some stream) (hf : 0 < frameSize host stream)
    (hq : n / frameSize host stream < UINT_RANGE) :
    ∃ σ₁, AddData host data n σ = some σ₁ ∧
      σ₁.audio = σ.audio ∧
      ingestCalls σ₁.trace = ingestCalls σ.trace ++
        [Event.StreamAddData stream data 0 (n / frameSize host stream)] ∧
      n = (n / frameSize host stream) * frameSize host stream + n % frameSize host stream ∧
      n % frameSize host stream < frameSize host stream := by
  refine ⟨_, AddData_streaming host data n σ stream he hs (Nat.pos_iff_ne_zero.mp hf), rfl, ?_,
    ?_, Nat.mod_lt _ hf⟩
  · rw [Nat.mod_eq_of_lt hq]
    exact ingestCalls_streaming σ.trace stream data _
  · rw [Nat.mul_comm]
    exact (Nat.div_add_mod n (frameSize host stream)).symm

/-- Witness for C13, amended: frame size 4 and byte length 10 give one ingest
call with 2 frames, and 2 bytes are left over. -/
theorem C13_frame_count_witness :
    frameSize (constHost stereoStream) stereoStream = 4 ∧
    ∃ σ₁, AddData (constHost stereoStream) [] 10 (holding stereoStream true) = some σ₁ ∧
      ingestCalls σ₁.trace = [Event.StreamAddData stereoStream [] 0 2] ∧ 10 % 4 = 2 := by
  obtain ⟨σ₁, h₁, -, h₂, -, -⟩ :=
    C13_frame_count (constHost stereoStream) [] 10 (holding stereoStream true) stereoStream
      rfl rfl (by decide) (by decide)
  exact ⟨by decide, σ₁, h₁, h₂, by decide⟩

/-- C14: the code at a zero frame size.  When the bridge is enabled and holds
a stream whose channel count is 0 or whose format has fewer than 8 total
bits, `AddData` reaches the division `size / frameSize` with `frameSize = 0`:
the buffer is not dropped by a guard, the call has no defined behaviour. -/
theorem C14_zero_frame_size_divides (host : Host) (data : List Nat) (size : Nat) (σ : Sys)
    (stream : IAEStream) (he : σ.audio.m_bAudioEnabled = true)
    (hs : σ.audio.m_pAudioStream = some stream)
    (hz : stream.channelCount = 0 ∨ host.DataFormatToBits stream.dataFormat < 8) :
    frameSize host stream = 0 ∧ AddData host data size σ = none := by
  have hf : frameSize host stream = 0 := by
    unfold frameSize
    rcases hz with hz | hz
    · rw [hz]
      simp
    · have : host.DataFormatToBits stream.dataFormat >>> 3 = 0 := by
        rw [Nat.shiftRight_eq_div_pow]
        exact Nat.div_eq_of_lt hz
      rw [this]
      simp
  refine ⟨hf, ?_⟩
  unfold AddData
  rw [if_pos he, hs]
  simp only [hf, if_true]

/-- Witness for C14: an enabled bridge holding a stream that reports no
channels, and a buffer of 10 bytes. -/
theorem C14_zero_frame_size_divides_witness :
    frameSize (constHost silentStream) silentStream = 0 ∧
    AddData (constHost silentStream) [] 10 (holding silentStream true) = none :=
  C14_zero_frame_size_divides (constHost silentStream) [] 10 (holding silentStream true)
    silentStream rfl rfl (Or.inl rfl)

/-- C15: the code's answer.  For every codec, sample rate, channel layout and
state, `OpenEncodedStream` returns `true`. -/
theorem C15_open_encoded_returns_true (codec : AVCodecID) (samplerate : Nat)
    (channelLayout : CAEChannelInfo) (σ : Sys) :
    (OpenEncodedStream codec samplerate channelLayout σ).1 = true :=
  rfl

/-- C16: for every codec, sample rate, channel layout and state,
`OpenEncodedStream` leaves the held stream and the mute flag as they were and
makes no call to a collaborator. -/
theorem C16_open_encoded_frame (codec : AVCodecID) (samplerate : Nat)
    (channelLayout : CAEChannelInfo) (σ : Sys) :
    (OpenEncodedStream codec samplerate channelLayout σ).2.audio.m_pAudioStream =
      σ.audio.m_pAudioStream ∧
    (OpenEncodedStream codec samplerate channelLayout σ).2.audio.m_bAudioEnabled =
      σ.audio.m_bAudioEnabled ∧
    (OpenEncodedStream codec samplerate channelLayout σ).2.trace = σ.trace ∧
    (OpenEncodedStream codec samplerate channelLayout σ).2 = σ :=
  ⟨rfl, rfl, rfl, rfl⟩

/-- C17: `OpenPCMStream` reports metadata exactly when it returns `true`: on
success the given layout, the given rate and `DataFormatToUsedBits` of the
given format, once each and in that order; on failure nothing.  With samples
of 24 used bits in 32 stored bits the reported depth is 24 while the frame
size of `AddData` comes from the 32. -/
theorem C17_metadata_on_success (host : Host) (format : AEDataFormat) (samplerate : Nat)
    (channelLayout : CAEChannelInfo) (σ : Sys) :
    metadataCalls (OpenPCMStream host format samplerate channelLayout σ).2.trace =
      metadataCalls σ.trace ++
        (if (OpenPCMStream host format samplerate channelLayout σ).1 = true then
          [Event.SetAudioChannels channelLayout, Event.SetAudioSampleRate samplerate,
           Event.SetAudioBitsPerSample (host.DataFormatToUsedBits format)]
         else []) ∧
    metadataCalls (OpenPCMStream (paddedHost stereoStream) 0 44100 [0, 1] construct).2.trace =
      [Event.SetAudioChannels [0, 1], Event.SetAudioSampleRate 44100,
       Event.SetAudioBitsPerSample 24] ∧
    frameSize (paddedHost stereoStream) stereoStream = 8 := by
  refine ⟨?_, by decide, by decide⟩
  by_cases hn : NormalizeSamplerate samplerate = samplerate
  · rw [OpenPCMStream_supported host format samplerate channelLayout σ hn]
    simp only [CloseStream_trace]
    cases host.MakeStream _ (⟨format, samplerate, channelLayout⟩ : AEAudioFormat) <;>
      cases σ.audio.m_pAudioStream <;>
      simp [metadataCalls, List.filter_append, List.filter_cons]
  · rw [OpenPCMStream_unsupported host format samplerate channelLayout σ hn]
    simp only [CloseStream_trace]
    cases σ.audio.m_pAudioStream <;> simp [metadataCalls, List.filter_append, List.filter_cons]

/-! ## Claims about the walk, monotonicity and the frame count -/

/-- The logged loop with eight iterations allowed or more, from the start of
the array: its result and its log, by the position of `x` among the floor
midpoints. -/
theorem normalizeLoopLogged_closed (x k : Nat) :
    normalizeLoopLogged x (k + 8) 0 ⟨0, [], []⟩ =
      if x < 6756 then (some 5512, ⟨1, readsOfIterations 1, [13512]⟩)
      else if x < 9512 then (some 8000, ⟨2, readsOfIterations 2, [13512, 19025]⟩)
      else if x < 13512 then (some 11025, ⟨3, readsOfIterations 3, [13512, 19025, 27025]⟩)
      else if x < 19025 then
        (some 16000, ⟨4, readsOfIterations 4, [13512, 19025, 27025, 38050]⟩)
      else if x < 27025 then
        (some 22050, ⟨5, readsOfIterations 5, [13512, 19025, 27025, 38050, 54050]⟩)
      else if x < 38050 then
        (some 32000, ⟨6, readsOfIterations 6, [13512, 19025, 27025, 38050, 54050, 76100]⟩)
      else if x < 46050 then
        (some 44100, ⟨7, readsOfIterations 7,
          [13512, 19025, 27025, 38050, 54050, 76100, 92100]⟩)
      else
        (some 48000, ⟨8, readsOfIterations 8,
          [13512, 19025, 27025, 38050, 54050, 76100, 92100]⟩) := by
  simp only [normalizeLoopLogged, sampleRateList, UINT_RANGE]
  norm_num
  split_ifs <;> rfl

/-- C18: for every sample rate and every iteration bound of at least 8, the
table walk returns from inside the loop (with the value of
`NormalizeSamplerate`, so the fallback `return samplerate` is not taken), after
at most 8 iterations, having read only indices 0 to 8 of the 9-element array,
and every sum `thisValue + nextValue` it computed is below `2 ^ 32`. -/
theorem C18_walk_bounded (x fuel : Nat) (h : 8 ≤ fuel) :
    (normalizeLoopLogged x fuel 0 ⟨0, [], []⟩).1 = some (NormalizeSamplerate x) ∧
    normalizeLoop x sampleRateList.length 0 = some (NormalizeSamplerate x) ∧
    (normalizeLoopLogged x fuel 0 ⟨0, [], []⟩).2.iterations ≤ 8 ∧
    (∀ i ∈ (normalizeLoopLogged x fuel 0 ⟨0, [], []⟩).2.reads, i ≤ 8) ∧
    sampleRateList.length = 9 ∧
    (∀ t ∈ (normalizeLoopLogged x fuel 0 ⟨0, [], []⟩).2.sums, t < UINT_RANGE) := by
  obtain ⟨k, rfl⟩ : ∃ k, fuel = k + 8 := ⟨fuel - 8, by omega⟩
  rw [normalizeLoopLogged_closed, NormalizeSamplerate_closed]
  refine ⟨?_, ?_, ?_, ?_, rfl, ?_⟩
  · split_ifs <;> rfl
  · rw [normalizeLoop_closed]
  · split_ifs <;> decide
  · split_ifs <;> decide
  · split_ifs <;> decide

/-- Witness for C18: at 96000 with exactly 8 iterations allowed the walk uses
all 8 and returns 48000. -/
theorem C18_walk_bounded_witness :
    (normalizeLoopLogged 96000 8 0 ⟨0, [], []⟩).1 = some 48000 ∧
    (normalizeLoopLogged 96000 8 0 ⟨0, [], []⟩).2.iterations = 8 :=
  ⟨(C18_walk_bounded 96000 8 (Nat.le_refl 8)).1, by decide⟩

/-- The eight bands of sample rates and the value of `NormalizeSamplerate` on
each. -/
theorem NormalizeSamplerate_bands (x : Nat) :
    (x < 6756 ∧ NormalizeSamplerate x = 5512) ∨
    (6756 ≤ x ∧ x < 9512 ∧ NormalizeSamplerate x = 8000) ∨
    (9512 ≤ x ∧ x < 13512 ∧ NormalizeSamplerate x = 11025) ∨
    (13512 ≤ x ∧ x < 19025 ∧ NormalizeSamplerate x = 16000) ∨
    (19025 ≤ x ∧ x < 27025 ∧ NormalizeSamplerate x = 22050) ∨
    (27025 ≤ x ∧ x < 38050 ∧ NormalizeSamplerate x = 32000) ∨
    (38050 ≤ x ∧ x < 46050 ∧ NormalizeSamplerate x = 44100) ∨
    (46050 ≤ x ∧ NormalizeSamplerate x = 48000) := by
  have hx := NormalizeSamplerate_closed x
  split_ifs at hx <;> omega

/-- C19: `NormalizeSamplerate` is monotone non-decreasing. -/
theorem C19_normalize_monotone (x y : Nat) (h : x ≤ y) :
    NormalizeSamplerate x ≤ NormalizeSamplerate y := by
  have hx := NormalizeSamplerate_bands x
  have hy := NormalizeSamplerate_bands y
  omega

/-- Witness for C19 at 9511 and 9512, either side of a midpoint. -/
theorem C19_normalize_monotone_witness :
    9511 ≤ 9512 ∧ NormalizeSamplerate 9511 ≤ NormalizeSamplerate 9512 :=
  ⟨by decide, C19_normalize_monotone 9511 9512 (by decide)⟩

/-- C20: on an enabled bridge holding a stream of non-zero frame size the
frame count `AddData` passes on is `(size / frameSize) % 2 ^ 32`.  It equals
`size / frameSize` exactly when that quotient is below `2 ^ 32`; at the size
`2 ^ 32 * frameSize`, which is below `2 ^ 64`, the quotient is `2 ^ 32` and 0
frames are passed on. -/
theorem C20_frame_count_truncated (host : Host) (data : List Nat) (size : Nat) (σ : Sys)
    (stream : IAEStream) (he : σ.audio.m_bAudioEnabled = true)
    (hs : σ.audio.m_pAudioStream = some stream) (hf : frameSize host stream ≠ 0) :
    AddData host data size σ =
      some { σ with
        trace := σ.trace ++
          [Event.GetChannelCount stream, Event.GetDataFormat stream,
           Event.StreamAddData stream data 0 ((size / frameSize host stream) % UINT_RANGE)] } ∧
    ((size / frameSize host stream) % UINT_RANGE = size / frameSize host stream ↔
      size / frameSize host stream < UINT_RANGE) ∧
    (size / frameSize host stream) % UINT_RANGE ≤ size / frameSize host stream ∧
    UINT_RANGE * frameSize host stream < 2 ^ 64 ∧
    (UINT_RANGE * frameSize host stream) / frameSize host stream = UINT_RANGE ∧
    AddData host data (UINT_RANGE * frameSize host stream) σ =
      some { σ with
        trace := σ.trace ++
          [Event.GetChannelCount stream, Event.GetDataFormat stream,
           Event.StreamAddData stream data 0 0] } := by
  have hpos : 0 < frameSize host stream := Nat.pos_of_ne_zero hf
  have hlt : frameSize host stream < UINT_RANGE := by
    unfold frameSize
    exact Nat.mod_lt _ (by decide)
  have hdiv : (UINT_RANGE * frameSize host stream) / frameSize host stream = UINT_RANGE :=
    Nat.mul_div_cancel _ hpos
  refine ⟨AddData_streaming host data size σ stream he hs hf, ?_, Nat.mod_le _ _, ?_, hdiv, ?_⟩
  · constructor
    · intro h
      rw [← h]
      exact Nat.mod_lt _ (by decide)
    · exact Nat.mod_eq_of_lt
  · have : UINT_RANGE * frameSize host stream < UINT_RANGE * UINT_RANGE :=
      Nat.mul_lt_mul_of_pos_left hlt (by decide)
    simpa [UINT_RANGE] using this
  · rw [AddData_streaming host data _ σ stream he hs hf, hdiv, Nat.mod_self]

/-- Witness for C20: frame size 4 and size `2 ^ 34`. -/
theorem C20_frame_count_truncated_witness :
    AddData (constHost stereoStream) [] 17179869184 (holding stereoStream true) =
      some { holding stereoStream true with
        trace := [Event.GetChannelCount stereoStream, Event.GetDataFormat stereoStream,
          Event.StreamAddData stereoStream [] 0 0] } :=
  (C20_frame_count_truncated (constHost stereoStream) [] 17179869184
    (holding stereoStream true) stereoStream rfl rfl (by decide)).1

end RetroPlayerAudio
